import Mathlib

/-!
Verification of the form-butler browser extension's form-completion pipeline.

The development shallowly embeds the JavaScript source:

* content script (content.js): snapshot extraction (collectFormData),
  the form registry (getFormsData / updateFormsData), the instruction
  merger (mergeInstructions), the DOM filler (fillFormFields) and the
  completion trigger (requestFormCompletion);
* background script: processFormCompletion, card stripping and card
  placeholder resolution (replaceCardPlaceholders), over CardManager's
  stored card records;
* the LLM gateway (LLMInterrogator.promptLLM) with its HTTP 429 retry.

JavaScript objects become Lean structures; in-place array mutation
becomes explicit list rebuilding; the chrome.storage state and the DOM
become explicit state values threaded through the functions; messages
sent on the extension bus are collected into result lists.  Everything
is computable so concrete runs can be evaluated inside proofs.
-/

/-- The value carried by a fill instruction.  The JavaScript value can be a
string, a boolean, or undefined; JS truthiness drives the filler's guards. -/
inductive FillValue where
  | str (s : String)
  | bool (b : Bool)
  | undef
deriving DecidableEq, Repr

/-- JS truthiness of a fill-instruction value: the empty string, false and
undefined are falsy. -/
def FillValue.truthy : FillValue → Bool
  | .str s => s ≠ ""
  | .bool b => b
  | .undef => false

/-- JS string coercion of a fill-instruction value, as performed by an
assignment to an input element's value property. -/
def FillValue.toStr : FillValue → String
  | .str s => s
  | .bool b => if b then "true" else "false"
  | .undef => "undefined"

/-- One fill instruction as produced by the model and consumed by
mergeInstructions / fillFormFields: a CSS selector, a value and a declared
control type. -/
structure FillInstruction where
  selector : String
  value : FillValue
  type : String
deriving DecidableEq, Repr

/-- One step of content.js mergeInstructions: the body of the forEach over
newInstructions.  findIndex locates the first existing instruction with the
same selector; a hit is overwritten in place, a miss is pushed at the end. -/
def mergeStep (existing : List FillInstruction) (n : FillInstruction) :
    List FillInstruction :=
  match existing.findIdx? (fun i => i.selector == n.selector) with
  | some idx => existing.set idx n
  | none => existing ++ [n]

/-- content.js mergeInstructions.  A null/undefined existing list (modelled
as none) is replaced wholesale by the incoming list; otherwise the incoming
instructions are folded into the existing array one by one. -/
def mergeInstructions (existingInstructions : Option (List FillInstruction))
    (newInstructions : List FillInstruction) : List FillInstruction :=
  match existingInstructions with
  | none => newInstructions
  | some ex => newInstructions.foldl mergeStep ex

/-- Modelled from the spec: the override of one existing instruction by the
incoming list, used to state the merge contract ("incoming instructions
overwrite existing ones with the same selector"). -/
def overrideBy (incoming : List FillInstruction) (e : FillInstruction) :
    FillInstruction :=
  match incoming.find? (fun n => n.selector == e.selector) with
  | some n => n
  | none => e

/-- Whether some instruction in the list carries the given selector. -/
def hasSel (l : List FillInstruction) (s : String) : Bool :=
  l.any (fun e => e.selector == s)

/-- Modelled from the spec: the merge result the spec describes — existing
instructions updated in place by selector, then the genuinely new incoming
instructions appended in order. -/
def mergedSpec (ex incoming : List FillInstruction) : List FillInstruction :=
  ex.map (overrideBy incoming) ++
    incoming.filter (fun n => !(hasSel ex n.selector))

theorem mergeStep_cons (e : FillInstruction) (es : List FillInstruction)
    (n : FillInstruction) :
    mergeStep (e :: es) n =
      if e.selector == n.selector then n :: es else e :: mergeStep es n := by
  unfold mergeStep
  rcases h : (e.selector == n.selector) with _ | _
  · simp only [List.findIdx?_cons, h, cond_false, Bool.false_eq_true, if_false]
    cases hfind : es.findIdx? (fun i => i.selector == n.selector) <;> simp [hfind]
  · simp [List.findIdx?_cons, h]

theorem mergeStep_of_not_hasSel (ex : List FillInstruction)
    (n : FillInstruction) (h : hasSel ex n.selector = false) :
    mergeStep ex n = ex ++ [n] := by
  induction ex with
  | nil => rfl
  | cons e es ih =>
    simp only [hasSel, List.any_cons, Bool.or_eq_false_iff] at h
    rw [mergeStep_cons, if_neg (by simp [h.1]) ]
    simp [ih (by simp [hasSel, h.2])]

theorem mergeStep_of_hasSel (ex : List FillInstruction)
    (n : FillInstruction) (h : hasSel ex n.selector = true)
    (hnd : (ex.map FillInstruction.selector).Nodup) :
    mergeStep ex n =
      ex.map (fun e => if e.selector = n.selector then n else e) := by
  induction ex with
  | nil => simp [hasSel] at h
  | cons e es ih =>
    simp only [List.map_cons, List.nodup_cons, List.mem_map] at hnd
    rcases hsel : (e.selector == n.selector) with _ | _
    · simp only [hasSel, List.any_cons, hsel, Bool.false_or] at h
      rw [mergeStep_cons, if_neg (by simp_all), ih h hnd.2, List.map_cons,
        if_neg (by simpa using hsel)]
    · rw [mergeStep_cons, if_pos hsel, List.map_cons,
        if_pos (by simpa using hsel)]
      have : ∀ x ∈ es, x.selector ≠ n.selector := by
        intro x hx hcontra
        exact hnd.1 ⟨x, hx, by rw [hcontra]; exact (eq_of_beq hsel).symm⟩
      have hmap : es.map (fun e => if e.selector = n.selector then n else e)
          = es := by
        rw [List.map_eq_iff]
        intro i
        cases hi : es[i]? with
        | none => simp
        | some x =>
          have hx : x ∈ es := List.getElem?_mem hi
          simp [this x hx]
      rw [hmap]

theorem overrideBy_nil (e : FillInstruction) : overrideBy [] e = e := rfl

theorem overrideBy_cons (n : FillInstruction) (rest : List FillInstruction)
    (e : FillInstruction) :
    overrideBy (n :: rest) e =
      if n.selector == e.selector then n else overrideBy rest e := by
  rcases h : (n.selector == e.selector) with _ | _ <;>
    simp [overrideBy, List.find?_cons, h]

theorem overrideBy_of_not_hasSel (l : List FillInstruction)
    (e : FillInstruction) (h : hasSel l e.selector = false) :
    overrideBy l e = e := by
  induction l with
  | nil => rfl
  | cons m ms ih =>
    simp only [hasSel, List.any_cons, Bool.or_eq_false_iff] at h
    rw [overrideBy_cons, if_neg (by simp [h.1]), ih (by simp [hasSel, h.2])]

theorem hasSel_map (l : List FillInstruction) (s : String) :
    hasSel l s = (l.map (fun i => i.selector)).any (fun t => t == s) := by
  induction l with
  | nil => rfl
  | cons a t ih =>
    simp only [hasSel] at ih
    simp [hasSel, List.any_cons, ih]

theorem hasSel_congr (l1 l2 : List FillInstruction) (s : String)
    (h : l1.map (fun i => i.selector) = l2.map (fun i => i.selector)) :
    hasSel l1 s = hasSel l2 s := by
  rw [hasSel_map, hasSel_map, h]

theorem mergedSpec_nil (ex : List FillInstruction) : mergedSpec ex [] = ex := by
  unfold mergedSpec
  have h : overrideBy ([] : List FillInstruction) = fun e => e := funext fun e => rfl
  simp [h]

/-- Selector of a replaced-in-place instruction is unchanged, so the selector
column of the list survives an in-place merge step. -/
theorem selector_map_replace (ex : List FillInstruction) (n : FillInstruction) :
    (ex.map (fun e => if e.selector = n.selector then n else e)).map
        (fun i => i.selector) =
      ex.map (fun i => i.selector) := by
  rw [List.map_map]
  apply List.map_eq_map_iff.mpr
  intro e _
  by_cases h : e.selector = n.selector <;> simp [h]

theorem mergeInstructions_some (ex incoming : List FillInstruction) :
    mergeInstructions (some ex) incoming = incoming.foldl mergeStep ex := rfl

theorem foldl_mergeStep_spec :
    ∀ (incoming ex : List FillInstruction),
      (ex.map (fun i => i.selector)).Nodup →
      (incoming.map (fun i => i.selector)).Nodup →
      incoming.foldl mergeStep ex = mergedSpec ex incoming := by
  intro incoming
  induction incoming with
  | nil =>
    intro ex _ _
    simp [mergedSpec_nil]
  | cons n rest ih =>
    intro ex h1 h2
    simp only [List.map_cons, List.nodup_cons, List.mem_map] at h2
    have hrestnd : (rest.map (fun i => i.selector)).Nodup := h2.2
    have hnrest : hasSel rest n.selector = false := by
      rcases h : hasSel rest n.selector with _ | _
      · rfl
      · exfalso
        simp only [hasSel, List.any_eq_true, beq_iff_eq] at h
        obtain ⟨e, he, hsel⟩ := h
        exact h2.1 ⟨e, he, hsel⟩
    rw [List.foldl_cons]
    rcases hh : hasSel ex n.selector with _ | _
    · -- the incoming selector is new: the step appends it
      rw [mergeStep_of_not_hasSel ex n hh]
      have hexn : ((ex ++ [n]).map (fun i => i.selector)).Nodup := by
        have hnotin : n.selector ∉ ex.map (fun i => i.selector) := by
          intro hmem
          simp only [List.mem_map] at hmem
          obtain ⟨e, he, hsel⟩ := hmem
          have : hasSel ex n.selector = true := by
            simp only [hasSel, List.any_eq_true, beq_iff_eq]
            exact ⟨e, he, hsel⟩
          simp [this] at hh
        simp [List.nodup_append, h1, hnotin]
      rw [ih (ex ++ [n]) hexn hrestnd]
      unfold mergedSpec
      have hmap : (ex ++ [n]).map (overrideBy rest) =
          ex.map (overrideBy (n :: rest)) ++ [n] := by
        rw [List.map_append]
        congr 1
        · apply List.map_eq_map_iff.mpr
          intro e he
          rw [overrideBy_cons, if_neg]
          intro hbeq
          have hsel : e.selector = n.selector := (eq_of_beq hbeq).symm
          have : hasSel ex n.selector = true := by
            simp only [hasSel, List.any_eq_true, beq_iff_eq]
            exact ⟨e, he, hsel⟩
          simp [this] at hh
        · simp [overrideBy_of_not_hasSel rest n hnrest]
      have hfilter : rest.filter (fun m => !(hasSel (ex ++ [n]) m.selector)) =
          rest.filter (fun m => !(hasSel ex m.selector)) := by
        apply List.filter_congr
        intro m hm
        have hne : (n.selector == m.selector) = false := by
          rcases hb : (n.selector == m.selector) with _ | _
          · rfl
          · exfalso
            have : hasSel rest n.selector = true := by
              simp only [hasSel, List.any_eq_true]
              exact ⟨m, hm, by rw [beq_iff_eq] at hb ⊢; exact hb.symm⟩
            simp [this] at hnrest
        simp [hasSel, List.any_append, hne]
      rw [hmap, hfilter, List.filter_cons, hh]
      simp [List.append_assoc]
    · -- the incoming selector already exists: the step replaces in place
      rw [mergeStep_of_hasSel ex n hh h1]
      set ex2 := ex.map (fun e => if e.selector = n.selector then n else e) with hex2
      have hmapsel : ex2.map (fun i => i.selector) =
          ex.map (fun i => i.selector) := selector_map_replace ex n
      have hex2nd : (ex2.map (fun i => i.selector)).Nodup := by
        rw [hmapsel]; exact h1
      rw [ih ex2 hex2nd hrestnd]
      unfold mergedSpec
      have hmap : ex2.map (overrideBy rest) =
          ex.map (overrideBy (n :: rest)) := by
        rw [hex2, List.map_map]
        apply List.map_eq_map_iff.mpr
        intro e _
        by_cases hsel : e.selector = n.selector
        · simp only [Function.comp_apply, if_pos hsel]
          rw [overrideBy_of_not_hasSel rest n hnrest, overrideBy_cons,
            if_pos (by rw [beq_iff_eq, hsel])]
        · simp only [Function.comp_apply, if_neg hsel]
          rw [overrideBy_cons, if_neg (by rw [beq_iff_eq]; exact fun h => hsel h.symm)]
      have hfilter : rest.filter (fun m => !(hasSel ex2 m.selector)) =
          rest.filter (fun m => !(hasSel ex m.selector)) := by
        apply List.filter_congr
        intro m _
        rw [hasSel_congr ex2 ex m.selector hmapsel]
      rw [hmap, hfilter, List.filter_cons, hh]
      simp

/-- C5 (amended): provided selectors are pairwise distinct within the
existing list and within the incoming list, content.js mergeInstructions
returns the existing instructions with same-selector incoming instructions
substituted in place, followed by the incoming instructions whose selectors
are new, appended in their incoming order. -/
theorem mergeInstructions_replaces_preserves_appends
    (ex incoming : List FillInstruction)
    (h1 : (ex.map (fun i => i.selector)).Nodup)
    (h2 : (incoming.map (fun i => i.selector)).Nodup) :
    mergeInstructions (some ex) incoming = mergedSpec ex incoming := by
  rw [mergeInstructions_some, foldl_mergeStep_spec incoming ex h1 h2]

/-- C5 witness: the claim's own example, merging an update for selector #a
with a new instruction for #b, evaluated concretely. -/
theorem mergeInstructions_replaces_preserves_appends_witness :
    mergeInstructions (some [⟨"#a", .str "1", "text"⟩])
        [⟨"#a", .str "2", "text"⟩, ⟨"#b", .str "3", "text"⟩] =
      [⟨"#a", .str "2", "text"⟩, ⟨"#b", .str "3", "text"⟩] := by
  rw [mergeInstructions_replaces_preserves_appends _ _ (by decide) (by decide)]
  decide

/-- C5 counterexample: the claim quantifies over every pair of instruction
lists, but with a duplicated selector inside the incoming list the code
collapses the duplicates (the second occurrence overwrites the first, which
was just appended) while the claimed description appends both in order. -/
theorem mergeInstructions_duplicate_selector_counterexample :
    mergeInstructions (some [])
        [⟨"#a", .str "1", "text"⟩, ⟨"#a", .str "2", "text"⟩] ≠
      mergedSpec [] [⟨"#a", .str "1", "text"⟩, ⟨"#a", .str "2", "text"⟩] := by
  decide

/-- Tag of a value-bearing form control, the targets of the
querySelectorAll(input, textarea, select) pass in collectFormData. -/
inductive ControlTag where
  | input
  | textarea
  | select
deriving DecidableEq, Repr

/-- One child node of a form element, as far as collectFormData inspects it:
a value-bearing control with its type attribute and current value, a button
element, or inert markup (labels, divs, text) that the clone keeps as is. -/
inductive FormNode where
  | control (tag : ControlTag) (type : String) (value : String)
  | button (label : String)
  | other (markup : String)
deriving DecidableEq, Repr

/-- Whether the first removal pass of collectFormData deletes the node:
it matches input[type=hidden], input[type=submit], input[type=button],
input[type=reset] and button elements. -/
def isRemovedControl : FormNode → Bool
  | .control .input ty _ =>
      ty == "hidden" || ty == "submit" || ty == "button" || ty == "reset"
  | .button _ => true
  | _ => false

/-- Whether the node matches the second pass's querySelectorAll selector
(input, textarea, select). -/
def isFormField : FormNode → Bool
  | .control _ _ _ => true
  | _ => false

/-- The el.value read by collectFormData's second pass. -/
def nodeValue : FormNode → String
  | .control _ _ v => v
  | _ => ""

/-- HTML serialization of one node, the node's contribution to outerHTML. -/
def serializeNode : FormNode → String
  | .control .input ty v => "<input type=\"" ++ ty ++ "\" value=\"" ++ v ++ "\">"
  | .control .textarea _ v => "<textarea>" ++ v ++ "</textarea>"
  | .control .select _ v => "<select value=\"" ++ v ++ "\"></select>"
  | .button label => "<button>" ++ label ++ "</button>"
  | .other m => m

/-- A live form element: its id and its child nodes. -/
structure FormElement where
  id : String
  nodes : List FormNode
deriving DecidableEq, Repr

/-- The form's outerHTML: the form tag wrapping its serialized children. -/
def outerHTML (f : FormElement) : String :=
  "<form id=\"" ++ f.id ++ "\">" ++
    String.join (f.nodes.map serializeNode) ++ "</form>"

/-- The object collectFormData returns: form id, sanitized html, page url. -/
structure FormSnapshot where
  id : String
  html : String
  url : String
deriving DecidableEq, Repr

/-- JS String.prototype.trim: drop whitespace from both ends. -/
def jsTrim (s : String) : String :=
  ⟨((s.data.dropWhile Char.isWhitespace).reverse.dropWhile
      Char.isWhitespace).reverse⟩

/-- The cloned form after collectFormData's two removal passes: first the
hidden/submit/button/reset controls and buttons go, then every remaining
input/textarea/select whose trimmed value is non-empty is removed. -/
def collectClone (form : FormElement) : FormElement :=
  let afterRemoval := form.nodes.filter (fun n => !(isRemovedControl n))
  let afterValueDrop :=
    afterRemoval.filter (fun n => !(isFormField n && jsTrim (nodeValue n) != ""))
  { id := form.id, nodes := afterValueDrop }

/-- content.js collectFormData: clone, strip, serialize, record the url. -/
def collectFormData (url : String) (form : FormElement) : FormSnapshot :=
  { id := form.id, html := outerHTML (collectClone form), url := url }

/-- Whether the first character list starts the second. -/
def startsWithChars : List Char → List Char → Bool
  | [], _ => true
  | _ :: _, [] => false
  | c :: cs, d :: ds => c == d && startsWithChars cs ds

/-- Whether the first character list occurs contiguously in the second. -/
def hasRunChars (needle : List Char) : List Char → Bool
  | [] => startsWithChars needle []
  | d :: ds => startsWithChars needle (d :: ds) || hasRunChars needle ds

/-- Substring occurrence on strings. -/
def containsSub (needle haystack : String) : Bool :=
  hasRunChars needle.data haystack.data

/-- A form holding one text input the user filled with the word form. -/
def c2Field : FormNode := FormNode.control .input "text" "form"

/-- The page url used in the concrete snapshot runs. -/
def c2Url : String := "https://site.example/checkout"

/-- The concrete form for the C2 counterexample. -/
def c2Form : FormElement := { id := "f1", nodes := [c2Field] }

/-- C2 counterexample: a field whose user-entered value is the word form is
dropped from the clone, yet the snapshot html still contains that value as a
substring, because the form tag itself spells it; so the universally
quantified no-substring property is false on the code. -/
theorem collectFormData_substring_counterexample :
    jsTrim (nodeValue c2Field) ≠ "" ∧ c2Field ∈ c2Form.nodes ∧
      isFormField c2Field = true ∧
      containsSub (nodeValue c2Field) (collectFormData c2Url c2Form).html
        = true := by
  decide

/-- C2 (amended): a field holding a non-empty (trimmed) value at extraction
time is dropped from the clone entirely, and every control remaining in the
clone has an empty trimmed value — the field's real content is never emitted
through its own markup (the page's static markup, such as the form tag
itself, may still coincidentally contain the same character run). -/
theorem collectFormData_never_emits_filled (form : FormElement) :
    (∀ n ∈ form.nodes, isFormField n = true → jsTrim (nodeValue n) ≠ "" →
      n ∉ (collectClone form).nodes) ∧
    (∀ n ∈ (collectClone form).nodes, isFormField n = true →
      jsTrim (nodeValue n) = "") := by
  have key : ∀ n ∈ (collectClone form).nodes, isFormField n = true →
      jsTrim (nodeValue n) = "" := by
    intro n hmem hfield
    simp only [collectClone, List.mem_filter] at hmem
    have h2 := hmem.2
    simp only [hfield, Bool.true_and, Bool.not_eq_true',
      bne_eq_false_iff_eq] at h2
    exact h2
  constructor
  · intro n _ hfield hval hmem
    exact hval (key n hmem hfield)
  · exact key

/-- C2 witness: the concrete filled field is indeed dropped from the clone. -/
theorem collectFormData_never_emits_filled_witness :
    c2Field ∉ (collectClone c2Form).nodes :=
  (collectFormData_never_emits_filled c2Form).1 c2Field (by decide) (by decide)
    (by decide)

/-- A stored payment card record, as saved by CardManager.saveCard: the
secret fields are named number, expiryMonth, expiryYear and ccv. -/
structure Card where
  name : String
  holderName : String
  number : String
  expiryMonth : String
  expiryYear : String
  ccv : String
deriving DecidableEq, Repr

/-- The object built in processFormCompletion by spreading the current card
and then assigning cardNumber, cvv and expirationDate.  The spread copies
the six stored fields unchanged; the three assignments create NEW keys (the
stored record has no cardNumber, cvv or expirationDate key), so the stored
secret fields are not touched. -/
structure StrippedCard where
  name : String
  holderName : String
  number : String
  expiryMonth : String
  expiryYear : String
  ccv : String
  cardNumber : String
  cvv : String
  expirationDate : String
deriving DecidableEq, Repr

/-- processFormCompletion's card preparation: strippedCard spread plus the
three blanking assignments. -/
def stripCard (currentCard : Card) : StrippedCard :=
  { name := currentCard.name
    holderName := currentCard.holderName
    number := currentCard.number
    expiryMonth := currentCard.expiryMonth
    expiryYear := currentCard.expiryYear
    ccv := currentCard.ccv
    cardNumber := ""
    cvv := ""
    expirationDate := "" }

/-- The user message handed to the Model Gateway, the JSON.stringify payload
of processFormCompletion: formBody, personalInfo and cardStructure. -/
structure UserMessage where
  formBody : String
  personalInfo : String
  cardStructure : StrippedCard
deriving DecidableEq, Repr

/-- processFormCompletion's messageContent construction. -/
def buildUserMessage (formHtml personalInfo : String) (currentCard : Card) :
    UserMessage :=
  { formBody := formHtml
    personalInfo := personalInfo
    cardStructure := stripCard currentCard }

/-- A concrete stored card with real secret values. -/
def cardA : Card :=
  { name := "Personal"
    holderName := "Mario Rossi"
    number := "4111111111111111"
    expiryMonth := "12"
    expiryYear := "26"
    ccv := "123" }

/-- The same card with a different card number and ccv. -/
def cardB : Card :=
  { cardA with number := "4000000000000002", ccv := "999" }

/-- The form body used in the concrete gateway-message runs. -/
def sampleFormBody : String := "<form id=\"f1\"></form>"

/-- The personal info blob used in the concrete gateway-message runs. -/
def sampleInfo : String := "firstName: Mario"

/-- C1 (code bug): the cardStructure serialized into the gateway user
message keeps the stored card's real number, ccv, expiryMonth and
expiryYear — the blanking assignments hit the nonexistent keys cardNumber,
cvv and expirationDate instead — and two runs that differ only in the
card's secret fields produce different gateway messages. -/
theorem stripCard_retains_secret_fields :
    (∀ c : Card,
      (stripCard c).number = c.number ∧ (stripCard c).ccv = c.ccv ∧
        (stripCard c).expiryMonth = c.expiryMonth ∧
        (stripCard c).expiryYear = c.expiryYear) ∧
    (buildUserMessage sampleFormBody sampleInfo cardA).cardStructure.number
        = "4111111111111111" ∧
    buildUserMessage sampleFormBody sampleInfo cardA ≠
      buildUserMessage sampleFormBody sampleInfo cardB := by
  refine ⟨fun c => ⟨rfl, rfl, rfl, rfl⟩, by decide, by decide⟩

/-- A record of the form registry stored under the formsData key. -/
structure FormRecord where
  id : String
  url : String
  html : String
  focused : Bool
  fulfilled : Bool
  fillInstructions : Option (List FillInstruction)
deriving DecidableEq, Repr

/-- updateFormsData's matching test: form.id === newForm.id and
form.url === newForm.url. -/
def hasKeyB (s : FormSnapshot) (f : FormRecord) : Bool :=
  f.id == s.id && f.url == s.url

/-- content.js getFormsData as invoked from updateFormsData.  The call
getFormsData(url = null) passes null as the formId ARGUMENT (the assignment
expression evaluates to null), so the url parameter keeps its default, the
current page location, and the function returns only the records whose url
equals the current page — although the call site's comment says it fetches
all forms. -/
def getFormsDataForUpdate (currentUrl : String) (storage : List FormRecord) :
    List FormRecord :=
  storage.filter (fun f => f.url == currentUrl)

/-- form.focused = false, applied to every fetched record. -/
def unfocus (f : FormRecord) : FormRecord := { f with focused := false }

/-- Object.assign(existingForm, newForm) followed by
existingForm.focused = true: the snapshot's id/html/url overwrite the
record's fields of the same name; fulfilled and fillInstructions stay. -/
def assignSnapshot (f : FormRecord) (s : FormSnapshot) : FormRecord :=
  { f with id := s.id, html := s.html, url := s.url, focused := true }

/-- The record pushed for a previously unseen form: focused true,
fulfilled false. -/
def freshRecord (s : FormSnapshot) : FormRecord :=
  { id := s.id, url := s.url, html := s.html, focused := true,
    fulfilled := false, fillInstructions := none }

/-- The find / Object.assign / push core of updateFormsData: the first
record matching the snapshot's id and url is updated in place, otherwise a
fresh record is appended at the end. -/
def upsertInto (s : FormSnapshot) : List FormRecord → List FormRecord
  | [] => [freshRecord s]
  | f :: fs =>
      if hasKeyB s f then assignSnapshot f s :: fs else f :: upsertInto s fs

/-- content.js updateFormsData: fetch the records (filtered to the current
url by the getFormsData(url = null) quirk), clear every focused flag, then
update in place or append, and store the resulting array back. -/
def updateFormsData (currentUrl : String) (storage : List FormRecord)
    (newForm : FormSnapshot) : List FormRecord :=
  upsertInto newForm ((getFormsDataForUpdate currentUrl storage).map unfocus)

/-- A registry record for a form previously seen on a different site. -/
def recOtherSite : FormRecord :=
  { id := "f1", url := "https://other.example/", html := "<form id=\"f1\"></form>",
    focused := false, fulfilled := true, fillInstructions := none }

/-- The snapshot upserted in the concrete registry runs. -/
def snapF2 : FormSnapshot :=
  { id := "f2", html := "<form id=\"f2\"></form>",
    url := "https://site.example/checkout" }

/-- C7 (code bug evaluation): upserting a snapshot on one page deletes the
stored record of a form from a different url — the record is present
before, its key differs from the upserted snapshot's, and yet it is gone
afterwards, the registry ending up holding only the fresh record. -/
theorem updateFormsData_deletes_foreign_url_record :
    recOtherSite ∈ [recOtherSite] ∧
      hasKeyB snapF2 recOtherSite = false ∧
      recOtherSite ∉ updateFormsData c2Url [recOtherSite] snapF2 ∧
      updateFormsData c2Url [recOtherSite] snapF2 = [freshRecord snapF2] := by
  decide

theorem hasKeyB_freshRecord (s : FormSnapshot) :
    hasKeyB s (freshRecord s) = true := by
  simp [hasKeyB, freshRecord]

theorem hasKeyB_assignSnapshot (s : FormSnapshot) (f : FormRecord) :
    hasKeyB s (assignSnapshot f s) = true := by
  simp [hasKeyB, assignSnapshot]

theorem hasKeyB_unfocus (s : FormSnapshot) (f : FormRecord) :
    hasKeyB s (unfocus f) = hasKeyB s f := rfl

theorem countP_cons_true {p : FormRecord → Bool} {f : FormRecord}
    {fs : List FormRecord} (h : p f = true) :
    (f :: fs).countP p = fs.countP p + 1 := by
  simp [List.countP_cons, h]

theorem countP_cons_false {p : FormRecord → Bool} {f : FormRecord}
    {fs : List FormRecord} (h : p f = false) :
    (f :: fs).countP p = fs.countP p := by
  simp [List.countP_cons, h]

/-- Upserting into an all-unfocused list leaves at most one focused record:
either the assigned or the appended record. -/
theorem upsertInto_focused_le_one (s : FormSnapshot) :
    ∀ A : List FormRecord, (∀ f ∈ A, f.focused = false) →
      (upsertInto s A).countP (fun f => f.focused) ≤ 1 := by
  intro A
  induction A with
  | nil =>
    intro _
    simp [upsertInto, List.countP_cons, freshRecord]
  | cons f fs ih =>
    intro hall
    have hfs : ∀ g ∈ fs, g.focused = false :=
      fun g hg => hall g (List.mem_cons_of_mem f hg)
    have hfszero : fs.countP (fun f => f.focused) = 0 :=
      List.countP_eq_zero.mpr (by intro g hg; simp [hfs g hg])
    rcases hk : hasKeyB s f with _ | _
    · simp only [upsertInto, hk, Bool.false_eq_true, if_false]
      rw [countP_cons_false (by simp [hall f (List.mem_cons_self f fs)])]
      exact ih hfs
    · simp only [upsertInto, hk, if_true]
      rw [countP_cons_true (by simp [assignSnapshot]), hfszero]

/-- Upserting guarantees exactly one record carrying the snapshot's key,
provided the list held at most one before. -/
theorem upsertInto_key_count (s : FormSnapshot) :
    ∀ A : List FormRecord, A.countP (hasKeyB s) ≤ 1 →
      (upsertInto s A).countP (hasKeyB s) = 1 := by
  intro A
  induction A with
  | nil =>
    intro _
    simp [upsertInto, List.countP_cons, hasKeyB_freshRecord]
  | cons f fs ih =>
    intro hle
    rcases hk : hasKeyB s f with _ | _
    · simp only [upsertInto, hk, Bool.false_eq_true, if_false]
      rw [countP_cons_false hk] at hle
      rw [countP_cons_false hk]
      exact ih hle
    · simp only [upsertInto, hk, if_true]
      rw [countP_cons_true hk] at hle
      have hfszero : fs.countP (hasKeyB s) = 0 := by omega
      rw [countP_cons_true (hasKeyB_assignSnapshot s f), hfszero]

/-- After an upsert every record carrying the snapshot's key is focused,
provided the key occurred at most once before. -/
theorem upsertInto_key_focused (s : FormSnapshot) :
    ∀ A : List FormRecord, A.countP (hasKeyB s) ≤ 1 →
      ∀ g ∈ upsertInto s A, hasKeyB s g = true → g.focused = true := by
  intro A
  induction A with
  | nil =>
    intro _ g hg _
    simp only [upsertInto, List.mem_singleton] at hg
    simp [hg, freshRecord]
  | cons f fs ih =>
    intro hle g hg hkey
    rcases hk : hasKeyB s f with _ | _
    · rw [countP_cons_false hk] at hle
      simp only [upsertInto, hk, Bool.false_eq_true, if_false,
        List.mem_cons] at hg
      rcases hg with hg | hg
      · rw [hg] at hkey; rw [hkey] at hk; exact absurd hk (by simp)
      · exact ih hle g hg hkey
    · rw [countP_cons_true hk] at hle
      have hfszero : fs.countP (hasKeyB s) = 0 := by omega
      simp only [upsertInto, hk, if_true, List.mem_cons] at hg
      rcases hg with hg | hg
      · simp [hg, assignSnapshot]
      · exfalso
        have := List.countP_eq_zero.mp hfszero g hg
        simp [hkey] at this

/-- An upsert does not change the fulfilled flag of the key's record: if
every key record has fulfilled = b and the key is present (count one), the
key records afterwards still have fulfilled = b. -/
theorem upsertInto_key_fulfilled (s : FormSnapshot) (b : Bool) :
    ∀ A : List FormRecord, A.countP (hasKeyB s) = 1 →
      (∀ f ∈ A, hasKeyB s f = true → f.fulfilled = b) →
      ∀ g ∈ upsertInto s A, hasKeyB s g = true → g.fulfilled = b := by
  intro A
  induction A with
  | nil => intro hone; simp at hone
  | cons f fs ih =>
    intro hone hall g hg hkey
    rcases hk : hasKeyB s f with _ | _
    · rw [countP_cons_false hk] at hone
      simp only [upsertInto, hk, Bool.false_eq_true, if_false,
        List.mem_cons] at hg
      rcases hg with hg | hg
      · rw [hg] at hkey; rw [hkey] at hk; exact absurd hk (by simp)
      · exact ih hone
          (fun x hx => hall x (List.mem_cons_of_mem f hx)) g hg hkey
    · rw [countP_cons_true hk] at hone
      have hfszero : fs.countP (hasKeyB s) = 0 := by omega
      simp only [upsertInto, hk, if_true, List.mem_cons] at hg
      rcases hg with hg | hg
      · have hf : f.fulfilled = b := hall f (List.mem_cons_self f fs) hk
        simp [hg, assignSnapshot, hf]
      · exfalso
        have := List.countP_eq_zero.mp hfszero g hg
        simp [hkey] at this

theorem countP_hasKeyB_map_unfocus (s : FormSnapshot) (l : List FormRecord) :
    (l.map unfocus).countP (hasKeyB s) = l.countP (hasKeyB s) := by
  induction l with
  | nil => rfl
  | cons f fs ih => simp [List.map_cons, List.countP_cons, ih, hasKeyB_unfocus]

theorem countP_hasKeyB_filter (s : FormSnapshot) (cur : String)
    (hurl : s.url = cur) (l : List FormRecord) :
    (l.filter (fun f => f.url == cur)).countP (hasKeyB s) =
      l.countP (hasKeyB s) := by
  induction l with
  | nil => rfl
  | cons f fs ih =>
    rcases hq : (f.url == cur) with _ | _
    · have hkey : hasKeyB s f = false := by
        simp only [hasKeyB, Bool.and_eq_false_iff]
        right
        rw [← hurl] at hq
        simpa [BEq.comm] using hq
      simp [List.filter_cons, hq, List.countP_cons, hkey, ih]
    · simp [List.filter_cons, hq, List.countP_cons, ih]

/-- C8: after every updateFormsData call at most one stored record is
focused, and calling updateFormsData twice with the same snapshot (id, url
and html identical, the snapshot taken on its own page) leaves exactly one
record for that key, that record focused, and does not reset the record's
fulfilled flag — whatever value fulfilled had after the first call survives
the second. -/
theorem updateFormsData_idempotent :
    (∀ (cur : String) (st : List FormRecord) (s : FormSnapshot),
      (updateFormsData cur st s).countP (fun f => f.focused) ≤ 1) ∧
    (∀ (cur : String) (st : List FormRecord) (s : FormSnapshot),
      s.url = cur → st.countP (hasKeyB s) ≤ 1 →
      (updateFormsData cur (updateFormsData cur st s) s).countP (hasKeyB s)
          = 1 ∧
      (∀ g ∈ updateFormsData cur (updateFormsData cur st s) s,
        hasKeyB s g = true → g.focused = true) ∧
      (∀ b : Bool,
        (∀ f ∈ updateFormsData cur st s, hasKeyB s f = true →
          f.fulfilled = b) →
        ∀ g ∈ updateFormsData cur (updateFormsData cur st s) s,
          hasKeyB s g = true → g.fulfilled = b)) := by
  constructor
  · intro cur st s
    apply upsertInto_focused_le_one
    intro f hf
    simp only [List.mem_map] at hf
    obtain ⟨g, _, rfl⟩ := hf
    rfl
  · intro cur st s hurl hdup
    have hA1count :
        (((getFormsDataForUpdate cur st).map unfocus).countP (hasKeyB s))
          ≤ 1 := by
      rw [countP_hasKeyB_map_unfocus]
      exact le_trans
        (List.Sublist.countP_le (hasKeyB s) (List.filter_sublist st)) hdup
    have hst1count : (updateFormsData cur st s).countP (hasKeyB s) = 1 :=
      upsertInto_key_count s _ hA1count
    have hA2count :
        (((getFormsDataForUpdate cur (updateFormsData cur st s)).map
            unfocus).countP (hasKeyB s)) = 1 := by
      rw [countP_hasKeyB_map_unfocus, getFormsDataForUpdate,
        countP_hasKeyB_filter s cur hurl, hst1count]
    refine ⟨?_, ?_, ?_⟩
    · exact upsertInto_key_count s _ (le_of_eq hA2count)
    · exact upsertInto_key_focused s _ (le_of_eq hA2count)
    · intro b hb
      apply upsertInto_key_fulfilled s b _ hA2count
      intro f hf hkey
      simp only [List.mem_map] at hf
      obtain ⟨g, hg, rfl⟩ := hf
      exact hb g (List.mem_of_mem_filter hg) (by rw [← hasKeyB_unfocus s g]; exact hkey)

/-- C8 witness: upserting the same snapshot twice into an empty registry
leaves exactly one record for its key. -/
theorem updateFormsData_idempotent_witness :
    (updateFormsData c2Url (updateFormsData c2Url [] snapF2) snapF2).countP
        (hasKeyB snapF2) = 1 :=
  (updateFormsData_idempotent.2 c2Url [] snapF2 (by decide) (by decide)).1

/-- An option child of a select element. -/
structure SelOption where
  value : String
  selected : Bool
deriving DecidableEq, Repr

/-- A fillable element of the live form, as fillFormFields touches it: the
selector resolving to it, its HTML value attribute (matched by the option
and radio attribute selectors), its current value property, its checked
flag, its option children and the events dispatched on it. -/
structure Elem where
  selector : String
  attrValue : String
  value : String
  checked : Bool
  options : List SelOption
  events : List String
deriving DecidableEq, Repr

/-- form.querySelector(sel): index of the first element the selector
resolves to. -/
def querySelIdx (elems : List Elem) (sel : String) : Option Nat :=
  elems.findIdx? (fun e => e.selector == sel)

/-- form.querySelector(sel[value=v]): index of the first element matching
both the selector and the value attribute, used by the radio branch. -/
def querySelValIdx (elems : List Elem) (sel v : String) : Option Nat :=
  elems.findIdx? (fun e => e.selector == sel && e.attrValue == v)

/-- input.querySelector(option[value=v]).selected = true: the first
matching option is marked selected. -/
def markFirstOption (v : String) : List SelOption → List SelOption
  | [] => []
  | o :: os =>
      if o.value == v then { o with selected := true } :: os
      else o :: markFirstOption v os

/-- In-place mutation of the element at one index. -/
def modifyAt (g : Elem → Elem) : Nat → List Elem → List Elem
  | _, [] => []
  | 0, e :: es => g e :: es
  | n + 1, e :: es => e :: modifyAt g n es

/-- One iteration of fillFormFields' loop over the instructions: resolve
the target, skip when it is missing, already holds a non-empty trimmed
value, or the instruction's value is falsy; otherwise fill according to the
declared type (select / checkbox / radio / default) dispatching the native
events. -/
def fillStep (elems : List Elem) (field : FillInstruction) : List Elem :=
  match querySelIdx elems field.selector with
  | none => elems
  | some i =>
    match elems[i]? with
    | none => elems
    | some input =>
      if jsTrim input.value == "" && field.value.truthy then
        if field.type == "select" then
          modifyAt (fun e =>
            { e with value := field.value.toStr,
                     options := markFirstOption field.value.toStr e.options,
                     events := e.events ++ ["change"] }) i elems
        else if field.type == "checkbox" then
          modifyAt (fun e =>
            { e with checked :=
                (field.value == FillValue.bool true
                  || field.value == FillValue.str "true"),
                     events := e.events ++ ["change"] }) i elems
        else if field.type == "radio" then
          match querySelValIdx elems field.selector field.value.toStr with
          | some j =>
              modifyAt (fun e =>
                { e with checked := true,
                         events := e.events ++ ["change"] }) j elems
          | none => elems
        else
          modifyAt (fun e =>
            { e with value := field.value.toStr,
                     events := e.events ++ ["input", "change"] }) i elems
      else elems

/-- content.js fillFormFields: the for-of loop over the instructions. -/
def fillFormFields (elems : List Elem)
    (fillInstructions : List FillInstruction) : List Elem :=
  fillInstructions.foldl fillStep elems

theorem modifyAt_getElem_ne (g : Elem → Elem) :
    ∀ (l : List Elem) (k i : Nat), i ≠ k →
      (modifyAt g k l)[i]? = l[i]? := by
  intro l
  induction l with
  | nil => intro k i _; cases k <;> rfl
  | cons e es ih =>
    intro k i hne
    cases k with
    | zero =>
      cases i with
      | zero => exact absurd rfl hne
      | succ i2 => simp [modifyAt]
    | succ n =>
      cases i with
      | zero => simp [modifyAt]
      | succ i2 =>
        simp only [modifyAt, List.getElem?_cons_succ]
        exact ih n i2 (fun h => hne (by rw [h]))

theorem modifyAt_selector_map (g : Elem → Elem)
    (hsel : ∀ e, (g e).selector = e.selector) :
    ∀ (l : List Elem) (k : Nat),
      (modifyAt g k l).map (fun e => e.selector) =
        l.map (fun e => e.selector) := by
  intro l
  induction l with
  | nil => intro k; cases k <;> rfl
  | cons e es ih =>
    intro k
    cases k with
    | zero => simp [modifyAt, hsel e]
    | succ n => simp [modifyAt, ih n]

theorem querySelIdx_congr (sel : String) :
    ∀ (l1 l2 : List Elem),
      l1.map (fun e => e.selector) = l2.map (fun e => e.selector) →
      querySelIdx l1 sel = querySelIdx l2 sel := by
  intro l1
  induction l1 with
  | nil =>
    intro l2 h
    cases l2 with
    | nil => rfl
    | cons _ _ => simp at h
  | cons e es ih =>
    intro l2 h
    cases l2 with
    | nil => simp at h
    | cons f fs =>
      simp only [List.map_cons, List.cons.injEq] at h
      simp only [querySelIdx, List.findIdx?_cons, h.1]
      rcases (f.selector == sel) with _ | _
      · simpa using congrArg (fun o => Option.map (fun i => i + 1) o)
          (ih fs h.2)
      · rfl

theorem findIdx?_prop {p : Elem → Bool} :
    ∀ (l : List Elem) (j : Nat), l.findIdx? p = some j →
      ∃ x, l[j]? = some x ∧ p x = true := by
  intro l
  induction l with
  | nil => intro j h; simp [List.findIdx?_nil] at h
  | cons e es ih =>
    intro j h
    rw [List.findIdx?_cons] at h
    rcases hp : p e with _ | _
    · rw [hp, if_neg (by simp), List.findIdx?_succ] at h
      simp only [Option.map_eq_some'] at h
      obtain ⟨j2, hj2, rfl⟩ := h
      obtain ⟨x, hx, hpx⟩ := ih j2 hj2
      exact ⟨x, by simpa using hx, hpx⟩
    · rw [hp, if_pos rfl] at h
      simp only [Option.some.injEq] at h
      subst h
      exact ⟨e, by simp, hp⟩

theorem fillStep_selector_map (elems : List Elem) (field : FillInstruction) :
    (fillStep elems field).map (fun e => e.selector) =
      elems.map (fun e => e.selector) := by
  rcases hq : querySelIdx elems field.selector with _ | i
  · simp [fillStep, hq]
  · rcases hk : elems[i]? with _ | input
    · simp [fillStep, hq, hk]
    · simp only [fillStep, hq, hk]
      by_cases hguard : (jsTrim input.value == "" && field.value.truthy) = true
      · rw [if_pos hguard]
        by_cases h1 : (field.type == "select") = true
        · rw [if_pos h1]
          apply modifyAt_selector_map
          intro e
          rfl
        · rw [if_neg h1]
          by_cases h2 : (field.type == "checkbox") = true
          · rw [if_pos h2]
            apply modifyAt_selector_map
            intro e
            rfl
          · rw [if_neg h2]
            by_cases h3 : (field.type == "radio") = true
            · rw [if_pos h3]
              cases hv :
                  querySelValIdx elems field.selector field.value.toStr with
              | none => rfl
              | some j =>
                show (modifyAt (fun e =>
                    { e with checked := true,
                             events := e.events ++ ["change"] }) j elems).map
                    (fun e => e.selector) = elems.map (fun e => e.selector)
                apply modifyAt_selector_map
                intro e
                rfl
            · rw [if_neg h3]
              apply modifyAt_selector_map
              intro e
              rfl
      · rw [if_neg hguard]

theorem fillStep_preserves (elems : List Elem) (field : FillInstruction)
    (i : Nat) (e : Elem) (hget : elems[i]? = some e)
    (hfirst : querySelIdx elems e.selector = some i)
    (hval : jsTrim e.value ≠ "") :
    (fillStep elems field)[i]? = some e := by
  rcases hq : querySelIdx elems field.selector with _ | k
  · simp [fillStep, hq, hget]
  · rcases hk : elems[k]? with _ | input
    · simp [fillStep, hq, hk, hget]
    · simp only [fillStep, hq, hk]
      by_cases hguard : (jsTrim input.value == "" && field.value.truthy) = true
      · have hkne : i ≠ k := by
          intro h
          rw [← h, hget] at hk
          have hie : input = e := by injection hk with hh; exact hh.symm
          subst hie
          simp only [Bool.and_eq_true, beq_iff_eq] at hguard
          exact hval hguard.1
        rw [if_pos hguard]
        by_cases h1 : (field.type == "select") = true
        · rw [if_pos h1]
          exact (modifyAt_getElem_ne _ elems k i hkne).trans hget
        · rw [if_neg h1]
          by_cases h2 : (field.type == "checkbox") = true
          · rw [if_pos h2]
            exact (modifyAt_getElem_ne _ elems k i hkne).trans hget
          · rw [if_neg h2]
            by_cases h3 : (field.type == "radio") = true
            · rw [if_pos h3]
              rcases hv :
                  querySelValIdx elems field.selector field.value.toStr
                  with _ | j
              · exact hget
              · have hji : i ≠ j := by
                  intro h
                  subst h
                  unfold querySelValIdx at hv
                  obtain ⟨x, hx, hpx⟩ := findIdx?_prop elems i hv
                  rw [hget] at hx
                  have hxe : x = e := by injection hx with hh; exact hh.symm
                  subst hxe
                  simp only [Bool.and_eq_true, beq_iff_eq] at hpx
                  rw [hpx.1] at hfirst
                  rw [hfirst] at hq
                  have : k = i := by injection hq with hh; exact hh.symm
                  exact hkne this.symm
                exact (modifyAt_getElem_ne _ elems j i hji).trans hget
            · rw [if_neg h3]
              exact (modifyAt_getElem_ne _ elems k i hkne).trans hget
      · rw [if_neg hguard]
        exact hget

/-- C4: the DOM filler never overwrites what a user already typed — an
instruction whose target element (the first element its selector resolves
to) already holds a non-empty trimmed value leaves that element completely
unchanged through the whole batch, and an instruction whose own value is
falsy (empty string, false or undefined) changes nothing at all. -/
theorem fillFormFields_no_overwrite :
    (∀ (elems : List Elem) (instrs : List FillInstruction) (i : Nat)
        (e : Elem), elems[i]? = some e →
        querySelIdx elems e.selector = some i → jsTrim e.value ≠ "" →
        (fillFormFields elems instrs)[i]? = some e) ∧
    (∀ (elems : List Elem) (field : FillInstruction),
        field.value.truthy = false → fillStep elems field = elems) := by
  constructor
  · intro elems instrs
    induction instrs generalizing elems with
    | nil => intro i e hget _ _; exact hget
    | cons f rest ih =>
      intro i e hget hfirst hval
      show (rest.foldl fillStep (fillStep elems f))[i]? = some e
      apply ih (fillStep elems f) i e
      · exact fillStep_preserves elems f i e hget hfirst hval
      · rw [querySelIdx_congr e.selector (fillStep elems f) elems
          (fillStep_selector_map elems f)]
        exact hfirst
      · exact hval
  · intro elems field hfalse
    rcases hq : querySelIdx elems field.selector with _ | i
    · simp [fillStep, hq]
    · rcases hk : elems[i]? with _ | input
      · simp [fillStep, hq, hk]
      · simp only [fillStep, hq, hk]
        rw [if_neg (by simp [hfalse])]

/-- The field the user pre-filled with Paris. -/
def parisElem : Elem :=
  { selector := "#city", attrValue := "", value := "Paris", checked := false,
    options := [], events := [] }

/-- The model's instruction carrying London for that same selector. -/
def londonInstr : FillInstruction :=
  { selector := "#city", value := .str "London", type := "text" }

/-- C4 witness: applying the London instruction to the Paris-filled field
leaves the field holding Paris, completely unchanged. -/
theorem fillFormFields_no_overwrite_witness :
    (fillFormFields [parisElem] [londonInstr])[0]? = some parisElem :=
  fillFormFields_no_overwrite.1 [parisElem] [londonInstr] 0 parisElem
    (by decide) (by decide) (by decide)

/-- A message the content script sends toward the background script; the
only one requestFormCompletion emits is the model-completion request. -/
inductive ContentOutMsg where
  | requestCompletion (formData : FormRecord)
deriving DecidableEq, Repr

/-- The content script's state: the module-level isRequestPending guard,
the two sync-storage settings it reads (with their defaults already
applied), the stored formsData array, and the ids of forms currently
carrying the form-butler-processing class. -/
structure ContentState where
  isRequestPending : Bool
  extensionEnabled : Bool
  useStoredCompletion : Bool
  formsData : List FormRecord
  processing : List String
deriving DecidableEq, Repr

/-- content.js getFocusedForm: getFormsData() filters the records to the
current page url (formId null, url defaulted), then find(form => form.focused). -/
def getFocusedForm (currentUrl : String) (st : ContentState) :
    Option FormRecord :=
  (st.formsData.filter (fun f => f.url == currentUrl)).find?
    (fun f => f.focused)

/-- content.js requestFormCompletion: bail out when the extension is
disabled or a request is pending; otherwise set the single-flight guard,
fetch the focused record (returning with the guard still held when there is
none), mark the form as processing and either send the completion request
or — when the form is fulfilled and stored completions are enabled — apply
the cached instructions, clear the processing mark and release the guard.
The DOM fill of the stored path acts on the page, outside this state. -/
def requestFormCompletion (currentUrl : String) (st : ContentState) :
    ContentState × List ContentOutMsg :=
  if !st.extensionEnabled then (st, [])
  else if st.isRequestPending then (st, [])
  else
    let st1 := { st with isRequestPending := true }
    match getFocusedForm currentUrl st1 with
    | none => (st1, [])
    | some focusedForm =>
      let st2 := { st1 with processing := st1.processing ++ [focusedForm.id] }
      if !(focusedForm.fulfilled && st2.useStoredCompletion) then
        (st2, [ContentOutMsg.requestCompletion focusedForm])
      else
        ({ st2 with
            processing := st2.processing.filter (fun i => i != focusedForm.id),
            isRequestPending := false }, [])

/-- A pending guard makes the trigger a no-op that emits nothing. -/
theorem requestFormCompletion_pending_drops (cur : String)
    (st : ContentState) (hpend : st.isRequestPending = true) :
    requestFormCompletion cur st = (st, []) := by
  unfold requestFormCompletion
  rcases hen : st.extensionEnabled with _ | _
  · simp [hen]
  · simp [hen, hpend]

/-- C3: single flight — when a trigger issues a model-completion request it
issues exactly one, leaves the guard held, and a second trigger fired
before the first resolves is dropped entirely: same state, no message, so
exactly one request reaches the gateway across the pair. -/
theorem requestFormCompletion_single_flight (cur cur2 : String)
    (st : ContentState)
    (hsent : (requestFormCompletion cur st).2 ≠ []) :
    (requestFormCompletion cur st).2.length = 1 ∧
      (requestFormCompletion cur st).1.isRequestPending = true ∧
      requestFormCompletion cur2 (requestFormCompletion cur st).1 =
        ((requestFormCompletion cur st).1, []) := by
  have hpair : (requestFormCompletion cur st).2.length = 1 ∧
      (requestFormCompletion cur st).1.isRequestPending = true := by
    obtain ⟨pend, en, used, fd, proc⟩ := st
    rcases en with _ | _
    · simp [requestFormCompletion] at hsent
    · rcases pend with _ | _
      · simp only [requestFormCompletion, Bool.not_true, Bool.false_eq_true,
          if_false] at hsent ⊢
        rcases hf : getFocusedForm cur ⟨true, true, used, fd, proc⟩ with _ | f
        · rw [hf] at hsent
          simp at hsent
        · rcases hstored : (f.fulfilled && used) with _ | _
          · simp [hstored]
          · rw [hf] at hsent
            simp only [Bool.and_eq_true] at hstored
            simp [hstored.1, hstored.2] at hsent
      · simp [requestFormCompletion] at hsent
  exact ⟨hpair.1, hpair.2,
    requestFormCompletion_pending_drops cur2 _ hpair.2⟩

/-- The content-script state before the C9 run: extension enabled, guard
free, no stored form focused. -/
def c9State : ContentState :=
  { isRequestPending := false, extensionEnabled := true,
    useStoredCompletion := true, formsData := [], processing := [] }

/-- A focused record that appears after the failing trigger. -/
def c9FocusedRecord : FormRecord :=
  { id := "f1", url := "https://site.example/checkout",
    html := "<form id=\"f1\"></form>", focused := true, fulfilled := false,
    fillInstructions := none }

/-- C9 (code bug evaluation): triggered with the extension enabled and no
focused record, requestFormCompletion emits nothing but returns with the
single-flight guard still held (isRequestPending = true), so a later
trigger — even with a focused form present — is dropped and emits nothing. -/
theorem requestFormCompletion_guard_leak :
    (requestFormCompletion c2Url c9State).2 = [] ∧
      (requestFormCompletion c2Url c9State).1.isRequestPending = true ∧
      (requestFormCompletion c2Url
          { (requestFormCompletion c2Url c9State).1 with
              formsData := [c9FocusedRecord] }).2 = [] := by
  decide

/-- A trigger-ready content state: guard free, extension enabled, one
focused unfulfilled record for the current page. -/
def c3State : ContentState :=
  { isRequestPending := false, extensionEnabled := true,
    useStoredCompletion := false, formsData := [c9FocusedRecord],
    processing := [] }

/-- C3 witness: a concrete pair of back-to-back triggers — the first emits
exactly one gateway request, the second is dropped. -/
theorem requestFormCompletion_single_flight_witness :
    (requestFormCompletion c2Url c3State).2.length = 1 ∧
      (requestFormCompletion c2Url c3State).1.isRequestPending = true ∧
      requestFormCompletion c2Url (requestFormCompletion c2Url c3State).1 =
        ((requestFormCompletion c2Url c3State).1, []) :=
  requestFormCompletion_single_flight c2Url c2Url c3State (by decide)

/-- A message the background script sends back to the content script. -/
structure BgMsg where
  action : String
  formId : Option String
  error : Option String
  fillInstructions : Option (List FillInstruction)
deriving DecidableEq, Repr

/-- The JSON object parsed out of the model's reply: the two instruction
arrays of the prompt contract. -/
structure LLMParsed where
  personalFillInstructions : List FillInstruction
  cardFillInstructions : List FillInstruction
deriving DecidableEq, Repr

/-- The property read currentCard[key] on a stored card record, with the
|| fallback to the empty string for missing keys. -/
def cardLookup (c : Card) (key : String) : String :=
  if key == "name" then c.name
  else if key == "holderName" then c.holderName
  else if key == "number" then c.number
  else if key == "expiryMonth" then c.expiryMonth
  else if key == "expiryYear" then c.expiryYear
  else if key == "ccv" then c.ccv
  else ""

/-- The placeholder key carried by a card instruction's value; a
non-string value indexes no card property (undefined, hence the empty
fallback). -/
def placeholderKey : FillValue → String
  | .str s => s
  | _ => ""

/-- background replaceCardPlaceholders: without a current card all card
instructions are dropped with a warning; otherwise each instruction's
placeholder value is replaced by the card's property (or empty string). -/
def replaceCardPlaceholders (currentCard : Option Card)
    (cardFillInstructions : List FillInstruction) : List FillInstruction :=
  match currentCard with
  | none => []
  | some c =>
      cardFillInstructions.map (fun i =>
        { i with value := FillValue.str (cardLookup c (placeholderKey i.value)) })

/-- background processFormCompletion, observed through the messages it
sends to the requesting tab.  The gateway argument stands for the awaited
promptLLM call together with the JSON.parse of its content: ok carries the
parsed instruction lists, error carries the caught error's message.  The
catch block sends a formCompletionError with the error message only — it
attaches NO formId.  The success path sends formCompletionReady with the
form's id and the concatenated personal and resolved card instructions. -/
def processFormCompletion (llmConfigured : Bool) (formData : FormSnapshot)
    (currentCard : Option Card) (gateway : Except String LLMParsed) :
    List BgMsg :=
  if !llmConfigured then
    [{ action := "formCompletionError", formId := none,
       error := some "LLM not configured", fillInstructions := none }]
  else
    match gateway with
    | .error msg =>
        [{ action := "formCompletionError", formId := none,
           error := some msg, fillInstructions := none }]
    | .ok llmResponse =>
        [{ action := "formCompletionReady", formId := some formData.id,
           error := none,
           fillInstructions := some (llmResponse.personalFillInstructions ++
             replaceCardPlaceholders currentCard
               llmResponse.cardFillInstructions) }]

/-- C6 (code bug): a Model Gateway failure makes processFormCompletion send
exactly one formCompletionError message, but that message carries no formId
— the catch block omits it — so it cannot name the originating form (the
claim expects formId f2 for the form with id f2). -/
theorem processFormCompletion_error_lacks_formId :
    (∀ (formData : FormSnapshot) (card : Option Card) (err : String),
      processFormCompletion true formData card (Except.error err) =
        [{ action := "formCompletionError", formId := none,
           error := some err, fillInstructions := none }]) ∧
    (processFormCompletion true snapF2 (some cardA)
        (Except.error "boom")).map (fun m => m.formId) = [none] := by
  exact ⟨fun formData card err => rfl, rfl⟩

/-- One HTTP response as promptLLM observes it: the status code, the
retry-after header (seconds), the error message inside the JSON body of a
failed response, and the choices' message contents of a successful one. -/
structure HttpResponse where
  status : Nat
  retryAfter : Nat
  errorMessage : Option String
  choices : List String
deriving DecidableEq, Repr

/-- response.ok: a status in the 200 to 299 range. -/
def respOk (r : HttpResponse) : Bool :=
  decide (200 ≤ r.status) && decide (r.status ≤ 299)

/-- The error text promptLLM throws on a non-ok response, built from the
provider's errorData.error message with the Unknown error fallback. -/
def llmErrorText (r : HttpResponse) : String :=
  "Error in LLM request: " ++
    (match r.errorMessage with
     | some m => m
     | none => "Unknown error")

/-- The tail of promptLLM after the retry logic settled on a response:
non-ok throws the provider's error text, ok returns the parsed choices'
contents. -/
def finishResponse (r : HttpResponse) : Except String (List String) :=
  if !(respOk r) then Except.error (llmErrorText r)
  else Except.ok r.choices

/-- The observable outcome of one promptLLM call: the value returned or
error thrown, the request bodies sent in order, and the milliseconds spent
in the setTimeout between attempts. -/
structure PromptRun where
  result : Except String (List String)
  requests : List String
  waitedMs : Nat
deriving Repr

/-- LLMInterrogator.promptLLM over the serialized request body and the
responses the provider would give to the first and (if reached) second
send: an initial 429 waits retryAfter seconds (setTimeout with
retryAfter * 1000) and re-sends the same body exactly once; any other
first response is final. -/
def promptLLM (body : String) (resp1 resp2 : HttpResponse) : PromptRun :=
  if resp1.status == 429 then
    { result := finishResponse resp2
      requests := [body, body]
      waitedMs := resp1.retryAfter * 1000 }
  else
    { result := finishResponse resp1
      requests := [body]
      waitedMs := 0 }

/-- C10: a first 429 response makes promptLLM wait the advertised
retry-after duration and re-send the identical body exactly once — never a
third time, as no run ever sends more than two requests — returning the
second response's parsed choices contents when it is a 200-class success
and propagating an error carrying the provider's message when it fails
again. -/
theorem promptLLM_retries_once (body : String) (resp1 resp2 : HttpResponse)
    (h429 : resp1.status = 429) :
    (promptLLM body resp1 resp2).requests = [body, body] ∧
      (promptLLM body resp1 resp2).waitedMs = resp1.retryAfter * 1000 ∧
      (respOk resp2 = true →
        (promptLLM body resp1 resp2).result = Except.ok resp2.choices) ∧
      (respOk resp2 = false →
        (promptLLM body resp1 resp2).result =
          Except.error (llmErrorText resp2)) ∧
      (∀ r1 r2 : HttpResponse, (promptLLM body r1 r2).requests.length ≤ 2) := by
  have hcond : (resp1.status == 429) = true := by simp [h429]
  refine ⟨by simp [promptLLM, hcond], by simp [promptLLM, hcond], ?_, ?_, ?_⟩
  · intro hok
    simp [promptLLM, hcond, finishResponse, hok]
  · intro hbad
    simp [promptLLM, hcond, finishResponse, hbad]
  · intro r1 r2
    by_cases h : (r1.status == 429) = true
    · simp [promptLLM, h]
    · simp [promptLLM, h]

/-- The provider's first response: rate limited, retry after 7 seconds. -/
def resp429 : HttpResponse :=
  { status := 429, retryAfter := 7, errorMessage := some "rate limited",
    choices := [] }

/-- The provider's second response: a success carrying one choice. -/
def resp200 : HttpResponse :=
  { status := 200, retryAfter := 0, errorMessage := none, choices := ["ok"] }

/-- C10 witness: a concrete 429-then-200 run — two identical requests,
a 7000 ms wait, and the 200's content returned. -/
theorem promptLLM_retries_once_witness :
    (promptLLM sampleFormBody resp429 resp200).requests =
        [sampleFormBody, sampleFormBody] ∧
      (promptLLM sampleFormBody resp429 resp200).waitedMs = 7000 ∧
      (promptLLM sampleFormBody resp429 resp200).result =
        Except.ok ["ok"] := by
  have h := promptLLM_retries_once sampleFormBody resp429 resp200 (by decide)
  refine ⟨h.1, ?_, ?_⟩
  · rw [h.2.1]
    rfl
  · rw [h.2.2.1 (by decide)]
    rfl
